import Mathlib

/-!
Verification of the voice-activity detection (VAD) core of the chibi
PNG-tuber application, shallowly embedded from the Rust sources.

The authoritative implementation of the detector is
`src/capture/mod.rs` (`rms_amplitude`, the callback closure inside
`capture_input`, `spawn_capture_thread`); `src/mic_capture.rs` and
`src/capture.rs` are earlier revisions of the same callback that
snapshot the configuration once at thread spawn and use a blocking
send — they are embedded separately where a claim contrasts them.

Float samples are idealised as exact rationals.  The source computes
`rms = sqrt(sum(x*x)/len)` in `f32` and only ever compares `rms`
against thresholds, so the embedding keeps the *mean square* (a
rational) and performs the two comparisons on squares; the functions
`rmsGe` and `rmsLt` below encode `sqrt ms >= t` and `sqrt ms < t`, and
the lemmas `rmsGe_true_iff` / `rmsLt_true_iff` prove the encodings
equivalent to the real-number comparisons with `Real.sqrt`.  An empty
buffer makes the source compute `0.0 / 0.0 = NaN` (there is no
emptiness guard); the `none` value of `meanSquare` models that NaN,
and both IEEE comparisons on NaN are false, which `rmsGe`/`rmsLt`
reproduce.
-/

/-- `ChibiConfig` from `src/config.rs`: the three detector tunables
(the serde/persistence attributes are out of scope). -/
structure ChibiConfig where
  microphone_threshold : ℚ
  deadband_factor : ℚ
  flicker_input : Bool
deriving DecidableEq

/-- The mean square `sum(x*x) / len` computed inside `rms_amplitude`
(`src/capture/mod.rs` lines 45–48).  The source then takes `sqrt`; we
keep the square (see the header comment).  `none` models the IEEE NaN
that the unguarded division `0.0 / 0.0` produces on an empty buffer. -/
def meanSquare (samples : List ℚ) : Option ℚ :=
  if samples.length = 0 then none
  else some ((samples.map fun x => x * x).sum / (samples.length : ℚ))

/-- IEEE comparison `rms >= t` where `rms = sqrt ms`; NaN (`none`)
compares false.  Encoded on squares: for `t ≤ 0` the comparison is
true since `sqrt ms ≥ 0`, otherwise it is `t² ≤ ms`.  Justified
against `Real.sqrt` by `rmsGe_true_iff`. -/
def rmsGe (ms : Option ℚ) (t : ℚ) : Bool :=
  match ms with
  | none => false
  | some m => decide (t ≤ 0 ∨ t * t ≤ m)

/-- IEEE comparison `rms < t` where `rms = sqrt ms`; NaN (`none`)
compares false.  Justified against `Real.sqrt` by `rmsLt_true_iff`. -/
def rmsLt (ms : Option ℚ) (t : ℚ) : Bool :=
  match ms with
  | none => false
  | some m => decide (0 < t ∧ m < t * t)

/-- The hysteresis update of `mic_active` performed by the callback in
`capture_input` (`src/capture/mod.rs` lines 164–175):
`rms_threshold_on = microphone_threshold`,
`rms_threshold_off = rms_threshold_on * deadband_factor`;
when active, deactivate iff `rms < rms_threshold_off`;
when inactive, activate iff `rms >= rms_threshold_on`. -/
def hysteresisStep (config : ChibiConfig) (mic_active : Bool) (ms : Option ℚ) : Bool :=
  let rms_threshold_on := config.microphone_threshold
  let rms_threshold_off := rms_threshold_on * config.deadband_factor
  if mic_active then
    if rmsLt ms rms_threshold_off then false else true
  else
    if rmsGe ms rms_threshold_on then true else false

/-- The events the callback attempts to send after the hysteresis
update (`src/capture/mod.rs` lines 177–190): when active with flicker
it sends `true`, sleeps a random 30–100 ms, then sends `false`; when
active without flicker it sends `true`; when inactive it sends
`false`.  The sleep has no effect on the event values. -/
def stepEvents (config : ChibiConfig) (mic_active : Bool) : List Bool :=
  if mic_active then
    if config.flicker_input then [true, false] else [true]
  else [false]

/-- Truncation toward zero, the rounding of Rust's `as i16` cast. -/
def ratTrunc (q : ℚ) : ℤ :=
  if 0 ≤ q then ⌊q⌋ else ⌈q⌉

/-- Sample conversion while active (`src/capture/mod.rs` lines
197–203): `sample.max(-1.0).min(1.0)` clamps to `[-1, 1]`, then
`(clamped * 32767.0) as i16` scales and truncates. -/
def toI16 (sample : ℚ) : ℤ :=
  ratTrunc (min (max sample (-1)) 1 * 32767)

/-- The observable outcome of one callback invocation. -/
structure CallbackResult where
  mic_active : Bool
  events : List Bool
  buffer : List ℤ
deriving DecidableEq

/-- One invocation of the callback closure built by `capture_input`
(`src/capture/mod.rs` lines 156–207): update the hysteresis state from
the buffer's RMS, emit the activity event(s), and — only when the
updated state is active (the `if !mic_active { return; }` early exit)
— append the converted samples to the shared accumulation buffer. -/
def capture_input (config : ChibiConfig) (mic_active : Bool) (buffer : List ℤ)
    (data : List ℚ) : CallbackResult :=
  let a := hysteresisStep config mic_active (meanSquare data)
  { mic_active := a
    events := stepEvents config a
    buffer := if a then buffer ++ data.map toI16 else buffer }

/-- Iterated hysteresis state over a sequence of buffers: the list of
`mic_active` values after each callback invocation, starting from the
given state (`false` at stream start in `capture_input`). -/
def runCapture (config : ChibiConfig) : Bool → List (List ℚ) → List Bool
  | _, [] => []
  | a, d :: rest =>
    hysteresisStep config a (meanSquare d) ::
      runCapture config (hysteresisStep config a (meanSquare d)) rest

/-- Concatenated event sequence attempted over a sequence of buffers. -/
def runEvents (config : ChibiConfig) : Bool → List (List ℚ) → List Bool
  | _, [] => []
  | a, d :: rest =>
    stepEvents config (hysteresisStep config a (meanSquare d)) ++
      runEvents config (hysteresisStep config a (meanSquare d)) rest

/-- `data` has RMS exactly `r`: the mean square is defined (buffer
non-empty) and equals `r * r` with `r ≥ 0`, i.e. `sqrt` of the mean
square is `r` (see `rmsIs_sqrt`). -/
def rmsIs (data : List ℚ) (r : ℚ) : Prop :=
  0 ≤ r ∧ meanSquare data = some (r * r)

instance (data : List ℚ) (r : ℚ) : Decidable (rmsIs data r) := by
  unfold rmsIs
  infer_instance

/-! ### Basic facts about the embedding -/

theorem meanSquare_nonneg {data : List ℚ} {m : ℚ} (h : meanSquare data = some m) :
    0 ≤ m := by
  unfold meanSquare at h
  split at h
  · exact absurd h (by simp)
  · rw [Option.some_inj] at h
    subst h
    apply div_nonneg
    · apply List.sum_nonneg
      intro x hx
      simp only [List.mem_map] at hx
      obtain ⟨y, _, rfl⟩ := hx
      exact mul_self_nonneg y
    · exact_mod_cast Nat.zero_le _

theorem meanSquare_replicate {n : ℕ} (hn : 0 < n) (a : ℚ) :
    meanSquare (List.replicate n a) = some (a * a) := by
  unfold meanSquare
  rw [List.length_replicate, if_neg (Nat.pos_iff_ne_zero.mp hn)]
  congr 1
  rw [List.map_replicate, List.sum_replicate, nsmul_eq_mul]
  exact mul_div_cancel_left₀ (a * a) (Nat.cast_ne_zero.mpr (Nat.pos_iff_ne_zero.mp hn))

/-- Justification of the squared encoding of `rms >= t`: it agrees
with the real-number comparison of `t` against the actual RMS
`Real.sqrt m`. -/
theorem rmsGe_true_iff {m t : ℚ} (hm : 0 ≤ m) :
    rmsGe (some m) t = true ↔ (t : ℝ) ≤ Real.sqrt (m : ℝ) := by
  unfold rmsGe
  rw [decide_eq_true_eq]
  constructor
  · rintro (ht | h)
    · exact le_trans (by exact_mod_cast ht) (Real.sqrt_nonneg _)
    · rcases le_or_lt t 0 with ht | ht
      · exact le_trans (by exact_mod_cast ht) (Real.sqrt_nonneg _)
      · rw [Real.le_sqrt' (by exact_mod_cast ht)]
        have h2 : ((t * t : ℚ) : ℝ) ≤ (m : ℝ) := by exact_mod_cast h
        calc (t : ℝ) ^ 2 = ((t * t : ℚ) : ℝ) := by push_cast; ring
          _ ≤ (m : ℝ) := h2
  · intro h
    rcases le_or_lt t 0 with ht | ht
    · exact Or.inl ht
    · right
      rw [Real.le_sqrt' (by exact_mod_cast ht)] at h
      have h2 : ((t * t : ℚ) : ℝ) ≤ (m : ℝ) := by
        calc ((t * t : ℚ) : ℝ) = (t : ℝ) ^ 2 := by push_cast; ring
          _ ≤ (m : ℝ) := h
      exact_mod_cast h2

/-- Justification of the squared encoding of `rms < t`: it agrees
with the real-number comparison of the actual RMS `Real.sqrt m`
against `t`. -/
theorem rmsLt_true_iff {m t : ℚ} (hm : 0 ≤ m) :
    rmsLt (some m) t = true ↔ Real.sqrt (m : ℝ) < (t : ℝ) := by
  unfold rmsLt
  rw [decide_eq_true_eq]
  constructor
  · rintro ⟨ht, h⟩
    rw [Real.sqrt_lt' (by exact_mod_cast ht)]
    have h2 : (m : ℝ) < ((t * t : ℚ) : ℝ) := by exact_mod_cast h
    calc (m : ℝ) < ((t * t : ℚ) : ℝ) := h2
      _ = (t : ℝ) ^ 2 := by push_cast; ring
  · intro h
    have ht : (0 : ℝ) < (t : ℝ) := lt_of_le_of_lt (Real.sqrt_nonneg _) h
    have ht0 : (0 : ℚ) < t := by exact_mod_cast ht
    refine ⟨ht0, ?_⟩
    rw [Real.sqrt_lt' ht] at h
    have h2 : (m : ℝ) < ((t * t : ℚ) : ℝ) := by
      calc (m : ℝ) < (t : ℝ) ^ 2 := h
        _ = ((t * t : ℚ) : ℝ) := by push_cast; ring
    exact_mod_cast h2

/-- A buffer with `rmsIs data r` really has RMS `r`: its mean square
is `r * r` and the square root of that is `r`. -/
theorem rmsIs_sqrt {data : List ℚ} {r : ℚ} (h : rmsIs data r) :
    meanSquare data = some (r * r) ∧ Real.sqrt ((r * r : ℚ) : ℝ) = (r : ℝ) := by
  refine ⟨h.2, ?_⟩
  push_cast
  exact Real.sqrt_mul_self (by exact_mod_cast h.1)

/-! ### Monotonicity of the threshold comparisons -/

theorem rmsGe_anti {ms : Option ℚ} {t1 t2 : ℚ} (h : t1 ≤ t2)
    (h2 : rmsGe ms t2 = true) : rmsGe ms t1 = true := by
  cases ms with
  | none => simpa [rmsGe] using h2
  | some m =>
    simp only [rmsGe, decide_eq_true_eq] at h2 ⊢
    rcases h2 with ht | hm
    · exact Or.inl (le_trans h ht)
    · rcases le_or_lt t1 0 with h1 | h1
      · exact Or.inl h1
      · exact Or.inr (by nlinarith)

theorem rmsLt_mono {ms : Option ℚ} {t1 t2 : ℚ} (h : t1 ≤ t2)
    (h1 : rmsLt ms t1 = true) : rmsLt ms t2 = true := by
  cases ms with
  | none => simpa [rmsLt] using h1
  | some m =>
    simp only [rmsLt, decide_eq_true_eq] at h1 ⊢
    obtain ⟨ht, hm⟩ := h1
    exact ⟨lt_of_lt_of_le ht h, by nlinarith⟩

/-- If the RMS is at least `t`, it is not below any `u ≤ t`. -/
theorem rmsLt_false_of_rmsGe {ms : Option ℚ} {t u : ℚ} (hu : u ≤ t)
    (h : rmsGe ms t = true) : rmsLt ms u = false := by
  cases ms with
  | none => rfl
  | some m =>
    simp only [rmsGe, decide_eq_true_eq] at h
    simp only [rmsLt, decide_eq_false_iff_not, not_and, not_lt]
    intro hu0
    rcases h with ht | hm
    · exact absurd (lt_of_lt_of_le hu0 hu) (not_lt.mpr ht)
    · nlinarith

/-- If the RMS is at least the on-threshold `t` and the deadband
factor lies in `[0, 1]`, the RMS is not below the off-threshold
`t * dd`, so an active detector stays active. -/
theorem rmsLt_deadband_false {ms : Option ℚ} {t dd : ℚ} (hd0 : 0 ≤ dd)
    (hd1 : dd ≤ 1) (h : rmsGe ms t = true) : rmsLt ms (t * dd) = false := by
  by_cases hpos : 0 < t * dd
  · have ht : 0 < t := by nlinarith
    exact rmsLt_false_of_rmsGe (by nlinarith) h
  · cases ms with
    | none => rfl
    | some m =>
      simp only [rmsLt, decide_eq_false_iff_not, not_and, not_lt]
      intro hc
      exact absurd hc hpos

/-- One hysteresis step is monotone in the threshold: with a common
deadband factor in `[0, 1]` and `t1 ≤ t2`, whenever the `t2` detector
is active after the step and its previous state implied the `t1`
detector's previous state, the `t1` detector is active as well. -/
theorem hysteresisStep_mono {t1 t2 dd : ℚ} {f1 f2 : Bool} {ms : Option ℚ}
    (hd0 : 0 ≤ dd) (hd1 : dd ≤ 1) (ht : t1 ≤ t2) {a1 a2 : Bool}
    (ha : a2 = true → a1 = true)
    (h2 : hysteresisStep ⟨t2, dd, f2⟩ a2 ms = true) :
    hysteresisStep ⟨t1, dd, f1⟩ a1 ms = true := by
  cases a2 with
  | false =>
    have hge2 : rmsGe ms t2 = true := by
      rcases hg : rmsGe ms t2 with _ | _
      · rw [hysteresisStep] at h2
        simp [hg] at h2
      · rfl
    have hge1 : rmsGe ms t1 = true := rmsGe_anti ht hge2
    cases a1 with
    | false => simp [hysteresisStep, hge1]
    | true => simp [hysteresisStep, rmsLt_deadband_false hd0 hd1 hge1]
  | true =>
    have ha1 : a1 = true := ha rfl
    subst ha1
    have hlt2 : rmsLt ms (t2 * dd) = false := by
      rcases hg : rmsLt ms (t2 * dd) with _ | _
      · rfl
      · rw [hysteresisStep] at h2
        simp [hg] at h2
    have hlt1 : rmsLt ms (t1 * dd) = false := by
      rcases hg : rmsLt ms (t1 * dd) with _ | _
      · rfl
      · have hc := rmsLt_mono (mul_le_mul_of_nonneg_right ht hd0) hg
        rw [hc] at hlt2
        cases hlt2
    simp [hysteresisStep, hlt1]

/-- Whole-run monotonicity in the threshold, pointwise: position by
position, activity of the higher-threshold run implies activity of the
lower-threshold run. -/
theorem runCapture_mono (t1 t2 dd : ℚ) (f1 f2 : Bool)
    (hd0 : 0 ≤ dd) (hd1 : dd ≤ 1) (ht : t1 ≤ t2)
    (bufs : List (List ℚ)) :
    ∀ (a1 a2 : Bool), (a2 = true → a1 = true) →
      List.Forall₂ (fun b2 b1 => b2 = true → b1 = true)
        (runCapture ⟨t2, dd, f2⟩ a2 bufs) (runCapture ⟨t1, dd, f1⟩ a1 bufs) := by
  induction bufs with
  | nil => intro a1 a2 _; exact List.Forall₂.nil
  | cons d rest ih =>
    intro a1 a2 ha
    refine List.Forall₂.cons ?_ (ih _ _ ?_)
    · exact fun h2 => hysteresisStep_mono hd0 hd1 ht ha h2
    · exact fun h2 => hysteresisStep_mono hd0 hd1 ht ha h2

/-- Pointwise implication between boolean lists bounds the number of
`true` entries. -/
theorem count_true_le_of_forall_two {l2 l1 : List Bool}
    (h : List.Forall₂ (fun b2 b1 => b2 = true → b1 = true) l2 l1) :
    l2.count true ≤ l1.count true := by
  induction h with
  | nil => simp
  | cons hr hl ih =>
    rename_i b2 b1 s2 s1
    simp only [List.count_cons]
    cases b2 with
    | false => cases b1 <;> simp <;> omega
    | true => rw [hr rfl]; simpa using ih

/-- While every buffer keeps the RMS at or above the on-threshold and
the deadband factor is in `[0, 1]`, the detector is active after every
callback, so each callback contributes exactly its active-state event
block. -/
theorem runEvents_all_loud (t dd : ℚ) (fl : Bool) (hd0 : 0 ≤ dd) (hd1 : dd ≤ 1)
    (bufs : List (List ℚ)) :
    ∀ a : Bool, (∀ b ∈ bufs, rmsGe (meanSquare b) t = true) →
      runEvents ⟨t, dd, fl⟩ a bufs =
        (List.replicate bufs.length (if fl then [true, false] else [true])).flatten := by
  induction bufs with
  | nil => intro a _; rfl
  | cons d rest ih =>
    intro a hall
    have hd : rmsGe (meanSquare d) t = true := hall d (List.mem_cons_self d rest)
    have hstep : hysteresisStep ⟨t, dd, fl⟩ a (meanSquare d) = true := by
      cases a with
      | false => simp [hysteresisStep, hd]
      | true => simp [hysteresisStep, rmsLt_deadband_false hd0 hd1 hd]
    rw [runEvents, hstep, ih true fun b hb => hall b (List.mem_cons_of_mem d hb)]
    simp [stepEvents, List.replicate_succ]

theorem flatten_replicate_singleton {α : Type} (n : ℕ) (x : α) :
    (List.replicate n [x]).flatten = List.replicate n x := by
  induction n with
  | zero => rfl
  | succ k ih => simp [List.replicate_succ, ih]

/-! ### Shared configuration across threads (C9)

The UI thread mutates the shared `Arc<Mutex<ChibiConfig>>` from
`ChibiApp::update` (`src/app.rs`: `ThresholdChanged`,
`DeadbandChanged`, `FlickerChanged`), and the callback in
`src/capture/mod.rs` locks the same mutex on every invocation
(`let config = lock_and_unlock!(config);`, line 158).  The two-thread
execution is embedded as an interleaving: a list of operations, each
either a UI write or a processed audio buffer. -/

inductive SessionOp where
  | setThreshold (t : ℚ)
  | setDeadband (d : ℚ)
  | setFlicker (f : Bool)
  | processBuffer (data : List ℚ)

/-- Effect of a UI write on the shared configuration
(`src/app.rs`, `ChibiApp::update`). -/
def applyOp (cfg : ChibiConfig) : SessionOp → ChibiConfig
  | .setThreshold t => { cfg with microphone_threshold := t }
  | .setDeadband d => { cfg with deadband_factor := d }
  | .setFlicker f => { cfg with flicker_input := f }
  | .processBuffer _ => cfg

/-- Interleaved session under the `src/capture/mod.rs` callback, which
locks and reads the shared configuration on every invocation: each
processed buffer uses the configuration as already updated by all
earlier writes.  Returns the `mic_active` value after each buffer. -/
def runShared : ChibiConfig → Bool → List SessionOp → List Bool
  | _, _, [] => []
  | cfg, a, SessionOp.processBuffer d :: ops =>
    hysteresisStep cfg a (meanSquare d) ::
      runShared cfg (hysteresisStep cfg a (meanSquare d)) ops
  | cfg, a, op :: ops => runShared (applyOp cfg op) a ops

/-- Interleaved session under the earlier `src/mic_capture.rs` /
`src/capture.rs` revisions, whose `spawn_detection_thread` /
`spawn_capture_thread` clone the configuration once at spawn
(`let config = clone.lock().unwrap().clone();`) and whose callback
captures that clone: every buffer uses the spawn-time snapshot `cfg0`
and UI writes never reach the callback. -/
def runSnapshot (cfg0 : ChibiConfig) : Bool → List SessionOp → List Bool
  | _, [] => []
  | a, SessionOp.processBuffer d :: ops =>
    hysteresisStep cfg0 a (meanSquare d) ::
      runSnapshot cfg0 (hysteresisStep cfg0 a (meanSquare d)) ops
  | a, _ :: ops => runSnapshot cfg0 a ops

/-- The audio buffers of a session, in order. -/
def sessionBuffers : List SessionOp → List (List ℚ)
  | [] => []
  | SessionOp.processBuffer d :: ops => d :: sessionBuffers ops
  | _ :: ops => sessionBuffers ops

/-! ### The event channel (C7)

The channel itself is `async_channel` library code, not part of this
repository; only its use sites are (`sender.try_send(x).ok();` in
`src/capture/mod.rs`).  Its send half is modelled from the spec. -/

/-- State of the bridge channel: the queued events, an optional
capacity bound (`async_channel::unbounded` in `src/main.rs` has none),
and whether the receiving side is still alive. -/
structure Channel where
  queue : List Bool
  capacity : Option ℕ
  receiverLive : Bool
deriving DecidableEq

/-- Modelled from the spec: `async_channel::Sender::try_send`, the
"non-blocking send that drops the event rather than stalling the
callback if the queue is full or the consumer has disconnected".  It
returns the updated channel and an `Except`: `.error` is the `Err`
value of the Rust `Result` (never a panic — the type has no panic
outcome, matching "must not raise an error observable to the audio
thread"). -/
def trySend (ch : Channel) (v : Bool) : Channel × Except Unit Unit :=
  if ch.receiverLive = false then (ch, Except.error ())
  else
    match ch.capacity with
    | none => ({ ch with queue := ch.queue ++ [v] }, Except.ok ())
    | some c =>
      if c ≤ ch.queue.length then (ch, Except.error ())
      else ({ ch with queue := ch.queue ++ [v] }, Except.ok ())

/-- `sender.try_send(x).ok();` from `src/capture/mod.rs` lines
182–188: the `Result` is converted to an `Option` and discarded, so
the callback observes only the channel, never the error. -/
def trySendOk (ch : Channel) (v : Bool) : Channel :=
  (trySend ch v).1

/-! ### Claim theorems -/

/-- C1: For the hysteresis detector with threshold 0.5 and deadband
factor 0.5 (off-threshold 0.25), starting from the initial Inactive
state, six successive buffers whose RMS values are 0.1, 0.6, 0.4, 0.3,
0.24, 0.6 produce exactly the active-state sequence false, true, true,
true, false, true (RMS 0.24 < 0.25 triggers the deactivation). -/
theorem capture_scenario_one (fl : Bool) (d1 d2 d3 d4 d5 d6 : List ℚ)
    (h1 : rmsIs d1 (1/10)) (h2 : rmsIs d2 (3/5)) (h3 : rmsIs d3 (2/5))
    (h4 : rmsIs d4 (3/10)) (h5 : rmsIs d5 (6/25)) (h6 : rmsIs d6 (3/5)) :
    runCapture ⟨1/2, 1/2, fl⟩ false [d1, d2, d3, d4, d5, d6] =
      [false, true, true, true, false, true] := by
  simp only [runCapture, h1.2, h2.2, h3.2, h4.2, h5.2, h6.2]
  norm_num [hysteresisStep, rmsGe, rmsLt]

theorem capture_scenario_one_witness :
    rmsIs [(1:ℚ)/10] (1/10) ∧ rmsIs [(3:ℚ)/5] (3/5) ∧ rmsIs [(2:ℚ)/5] (2/5) ∧
    rmsIs [(3:ℚ)/10] (3/10) ∧ rmsIs [(6:ℚ)/25] (6/25) ∧
    runCapture ⟨1/2, 1/2, false⟩ false
        [[(1:ℚ)/10], [3/5], [2/5], [3/10], [6/25], [3/5]] =
      [false, true, true, true, false, true] := by
  have h1 : rmsIs [(1:ℚ)/10] (1/10) := by norm_num [rmsIs, meanSquare]
  have h2 : rmsIs [(3:ℚ)/5] (3/5) := by norm_num [rmsIs, meanSquare]
  have h3 : rmsIs [(2:ℚ)/5] (2/5) := by norm_num [rmsIs, meanSquare]
  have h4 : rmsIs [(3:ℚ)/10] (3/10) := by norm_num [rmsIs, meanSquare]
  have h5 : rmsIs [(6:ℚ)/25] (6/25) := by norm_num [rmsIs, meanSquare]
  exact ⟨h1, h2, h3, h4, h5,
    capture_scenario_one false _ _ _ _ _ _ h1 h2 h3 h4 h5 h2⟩

/-- C2: For every configuration and buffer, if the detector is Active
and the buffer's RMS lies in the half-open band
`[threshold * deadband_factor, threshold)`, the detector stays Active
after the step; and the Active detector becomes Inactive exactly when
the RMS is strictly below `threshold * deadband_factor`. -/
theorem hysteresis_deadband_invariant (cfg : ChibiConfig) (data : List ℚ) (m : ℚ)
    (hms : meanSquare data = some m) :
    (((cfg.microphone_threshold * cfg.deadband_factor : ℚ) : ℝ) ≤ Real.sqrt (m : ℝ) ∧
        Real.sqrt (m : ℝ) < (cfg.microphone_threshold : ℝ) →
      hysteresisStep cfg true (some m) = true) ∧
    (hysteresisStep cfg true (some m) = false ↔
      Real.sqrt (m : ℝ) < ((cfg.microphone_threshold * cfg.deadband_factor : ℚ) : ℝ)) := by
  have hm := meanSquare_nonneg hms
  have key : hysteresisStep cfg true (some m) = false ↔
      rmsLt (some m) (cfg.microphone_threshold * cfg.deadband_factor) = true := by
    rcases h : rmsLt (some m) (cfg.microphone_threshold * cfg.deadband_factor) with _ | _
    · simp [hysteresisStep, h]
    · simp [hysteresisStep, h]
  constructor
  · rintro ⟨hlo, _⟩
    rcases h : hysteresisStep cfg true (some m) with _ | _
    · exact absurd hlo (not_le.mpr ((rmsLt_true_iff hm).mp (key.mp h)))
    · rfl
  · rw [key, rmsLt_true_iff hm]

theorem hysteresis_deadband_invariant_witness :
    hysteresisStep ⟨1/2, 1/2, false⟩ true (some (9/100)) = true := by
  have hs : Real.sqrt ((9/100 : ℚ) : ℝ) = (3/10 : ℝ) := by
    have h9 : ((9/100 : ℚ) : ℝ) = (3/10 : ℝ) * (3/10 : ℝ) := by norm_num
    rw [h9, Real.sqrt_mul_self (by norm_num)]
  apply (hysteresis_deadband_invariant ⟨1/2, 1/2, false⟩ [3/10] (9/100)
    (by norm_num [meanSquare])).1
  rw [hs]
  norm_num

/-- C3: For every threshold in `(0, 1]` and non-empty buffer of
constant amplitude `a ≥ 0` (RMS = a), an Inactive detector becomes
Active exactly when `a >= threshold`; and — the comparison being
inclusive — with threshold 0 an all-zero buffer (RMS 0) makes the
detector become Active. -/
theorem constant_buffer_activation (t dd a : ℚ) (fl : Bool) (n : ℕ)
    (ht0 : 0 < t) (ht1 : t ≤ 1) (ha : 0 ≤ a) (hn : 0 < n) :
    (hysteresisStep ⟨t, dd, fl⟩ false (meanSquare (List.replicate n a)) = true ↔
      t ≤ a) ∧
    hysteresisStep ⟨0, dd, fl⟩ false (meanSquare (List.replicate n (0 : ℚ))) = true := by
  constructor
  · rw [meanSquare_replicate hn]
    have hstep : hysteresisStep ⟨t, dd, fl⟩ false (some (a * a)) =
        rmsGe (some (a * a)) t := by
      rcases h : rmsGe (some (a * a)) t with _ | _ <;> simp [hysteresisStep, h]
    rw [hstep]
    simp only [rmsGe, decide_eq_true_eq]
    constructor
    · rintro (h | h)
      · exact absurd h (not_le.mpr ht0)
      · by_contra hc
        push_neg at hc
        have hp := mul_pos (sub_pos.mpr hc) (show (0:ℚ) < t + a by linarith)
        nlinarith
    · intro h
      exact Or.inr (by nlinarith)
  · rw [meanSquare_replicate hn]
    simp [hysteresisStep, rmsGe]

theorem constant_buffer_activation_witness :
    (0:ℚ) < 1/2 ∧ (1/2:ℚ) ≤ 1 ∧ (0:ℚ) ≤ 3/4 ∧ 0 < 2 ∧
    hysteresisStep ⟨1/2, 1/3, false⟩ false (meanSquare (List.replicate 2 ((3:ℚ)/4))) = true ∧
    hysteresisStep ⟨0, 1/3, false⟩ false (meanSquare (List.replicate 2 (0 : ℚ))) = true := by
  have h := constant_buffer_activation (1/2) (1/3) (3/4) false 2
    (by norm_num) (by norm_num) (by norm_num) (by norm_num)
  exact ⟨by norm_num, by norm_num, by norm_num, by norm_num,
    h.1.mpr (by norm_num), h.2⟩

/-- C4 counterexample: the claim demands the detector report/stay
Inactive on an all-zero buffer for every configuration, but with
threshold 0 (a legal configuration, cf. the spec's scenario 2) the
Inactive detector becomes Active on the all-zero buffer, since
RMS 0 >= 0. -/
theorem zero_buffer_not_always_inactive :
    hysteresisStep ⟨0, 3/10, false⟩ false (meanSquare [0, 0]) = true := by
  norm_num [hysteresisStep, rmsGe, meanSquare]

/-- C4 (amended): every non-empty all-zero buffer has mean square 0
(hence RMS 0); after processing it the detector is Inactive for every
configuration whose on-threshold is positive (when starting Inactive),
resp. whose off-threshold `threshold * deadband_factor` is positive
(when starting Active).  At the excluded boundaries the comparisons
`0 >= 0` and `0 < 0` keep or make the detector Active instead. -/
theorem zero_buffer_inactive (cfg : ChibiConfig) (n : ℕ) (hn : 0 < n) :
    meanSquare (List.replicate n (0 : ℚ)) = some 0 ∧
    (0 < cfg.microphone_threshold →
      hysteresisStep cfg false (meanSquare (List.replicate n (0 : ℚ))) = false) ∧
    (0 < cfg.microphone_threshold * cfg.deadband_factor →
      hysteresisStep cfg true (meanSquare (List.replicate n (0 : ℚ))) = false) := by
  have hms : meanSquare (List.replicate n (0 : ℚ)) = some 0 := by
    rw [meanSquare_replicate hn]
    norm_num
  refine ⟨hms, ?_, ?_⟩
  · intro ht
    rw [hms]
    have hg : rmsGe (some 0) cfg.microphone_threshold = false := by
      simp only [rmsGe, decide_eq_false_iff_not, not_or, not_le]
      exact ⟨ht, by nlinarith⟩
    simp [hysteresisStep, hg]
  · intro hoff
    rw [hms]
    have hl : rmsLt (some 0) (cfg.microphone_threshold * cfg.deadband_factor) = true := by
      simp only [rmsLt, decide_eq_true_eq]
      exact ⟨hoff, by nlinarith⟩
    simp [hysteresisStep, hl]

theorem zero_buffer_inactive_witness :
    meanSquare (List.replicate 3 (0 : ℚ)) = some 0 ∧
    hysteresisStep ⟨1/2, 1/2, false⟩ false (meanSquare (List.replicate 3 (0 : ℚ))) = false ∧
    hysteresisStep ⟨1/2, 1/2, false⟩ true (meanSquare (List.replicate 3 (0 : ℚ))) = false :=
  ⟨(zero_buffer_inactive ⟨1/2, 1/2, false⟩ 3 (by norm_num)).1,
   (zero_buffer_inactive ⟨1/2, 1/2, false⟩ 3 (by norm_num)).2.1 (by norm_num),
   (zero_buffer_inactive ⟨1/2, 1/2, false⟩ 3 (by norm_num)).2.2 (by norm_num)⟩

/-- C5: Threshold monotonicity.  For a fixed buffer sequence and a
deadband factor in its documented range `[0, 1]`, with `t1 ≤ t2`, both
runs starting Inactive: position by position, wherever the `t2` run is
Active the `t1` run is Active too (so the larger threshold never
becomes active earlier), and the `t2` run has at most as many Active
frames. -/
theorem threshold_monotone (bufs : List (List ℚ)) (t1 t2 dd : ℚ) (f1 f2 : Bool)
    (hd0 : 0 ≤ dd) (hd1 : dd ≤ 1) (ht : t1 ≤ t2) :
    List.Forall₂ (fun b2 b1 => b2 = true → b1 = true)
      (runCapture ⟨t2, dd, f2⟩ false bufs) (runCapture ⟨t1, dd, f1⟩ false bufs) ∧
    (runCapture ⟨t2, dd, f2⟩ false bufs).count true ≤
      (runCapture ⟨t1, dd, f1⟩ false bufs).count true := by
  have h := runCapture_mono t1 t2 dd f1 f2 hd0 hd1 ht bufs false false fun hc => hc
  exact ⟨h, count_true_le_of_forall_two h⟩

theorem threshold_monotone_witness :
    (0:ℚ) ≤ 1/2 ∧ (1/2:ℚ) ≤ 1 ∧ (1/4:ℚ) ≤ 1/2 ∧
    (List.Forall₂ (fun b2 b1 => b2 = true → b1 = true)
      (runCapture ⟨1/2, 1/2, false⟩ false [[(3:ℚ)/5]])
      (runCapture ⟨1/4, 1/2, false⟩ false [[(3:ℚ)/5]]) ∧
    (runCapture ⟨1/2, 1/2, false⟩ false [[(3:ℚ)/5]]).count true ≤
      (runCapture ⟨1/4, 1/2, false⟩ false [[(3:ℚ)/5]]).count true) :=
  ⟨by norm_num, by norm_num, by norm_num,
   threshold_monotone [[(3:ℚ)/5]] (1/4) (1/2) (1/2) false false
     (by norm_num) (by norm_num) (by norm_num)⟩

/-- C6: With every buffer's RMS at or above the threshold (deadband
factor in its documented range `[0, 1]`), the flicker-enabled detector
emits one `true, false` pair per callback — alternating pairs, never a
sustained run of `true` — while with flicker disabled the same input
yields only `true` events with no interleaved `false`. -/
theorem flicker_event_shape (t dd : ℚ) (bufs : List (List ℚ))
    (hd0 : 0 ≤ dd) (hd1 : dd ≤ 1)
    (hloud : ∀ b ∈ bufs, ∃ m : ℚ, meanSquare b = some m ∧
      (t : ℝ) ≤ Real.sqrt (m : ℝ)) :
    runEvents ⟨t, dd, true⟩ false bufs =
      (List.replicate bufs.length [true, false]).flatten ∧
    runEvents ⟨t, dd, false⟩ false bufs = List.replicate bufs.length true := by
  have hge : ∀ b ∈ bufs, rmsGe (meanSquare b) t = true := by
    intro b hb
    obtain ⟨m, hm, hle⟩ := hloud b hb
    rw [hm]
    exact (rmsGe_true_iff (meanSquare_nonneg hm)).mpr hle
  constructor
  · have h := runEvents_all_loud t dd true hd0 hd1 bufs false hge
    simpa using h
  · have h := runEvents_all_loud t dd false hd0 hd1 bufs false hge
    rw [h]
    simp [flatten_replicate_singleton]

theorem flicker_event_shape_witness :
    (0:ℚ) ≤ 1/2 ∧ (1/2:ℚ) ≤ 1 ∧
    runEvents ⟨1/2, 1/2, true⟩ false [[(1:ℚ)], [1]] = [true, false, true, false] ∧
    runEvents ⟨1/2, 1/2, false⟩ false [[(1:ℚ)], [1]] = [true, true] := by
  have hloud : ∀ b ∈ [[(1:ℚ)], [1]], ∃ m : ℚ, meanSquare b = some m ∧
      ((1/2 : ℚ) : ℝ) ≤ Real.sqrt (m : ℝ) := by
    intro b hb
    refine ⟨1, ?_, ?_⟩
    · simp only [List.mem_cons, List.not_mem_nil, or_false] at hb
      rcases hb with rfl | rfl <;> norm_num [meanSquare]
    · have h1 : ((1 : ℚ) : ℝ) = 1 := by norm_num
      rw [h1, Real.sqrt_one]
      norm_num
  have h := flicker_event_shape (1/2) (1/2) [[(1:ℚ)], [1]]
    (by norm_num) (by norm_num) hloud
  exact ⟨by norm_num, by norm_num, by simpa using h.1, by simpa using h.2⟩

/-- C7: When the receiving side of the event channel has been dropped,
or a bounded queue is full, the Rust `try_send` returns `Err` and the
callback's `.ok()` discards it: the audio thread observes only the
unchanged channel (the event is dropped).  `trySendOk`, the exact
operation the callback performs, is a total function into `Channel` —
there is no panic or blocking outcome in its type. -/
theorem try_send_drops_event (ch : Channel) (v : Bool)
    (h : ch.receiverLive = false ∨ ∃ c, ch.capacity = some c ∧ c ≤ ch.queue.length) :
    trySendOk ch v = ch ∧ (trySend ch v).2 = Except.error () := by
  unfold trySendOk trySend
  rcases h with h | ⟨c, hc, hlen⟩
  · rw [h]
    simp
  · rcases hr : ch.receiverLive with _ | _
    · simp
    · simp [hc, hlen]

theorem try_send_drops_event_witness :
    trySendOk ⟨[], none, false⟩ true = ⟨[], none, false⟩ ∧
    (trySend ⟨[], none, false⟩ true).2 = Except.error () :=
  try_send_drops_event ⟨[], none, false⟩ true (Or.inl rfl)

/-- C8 counterexample: on the empty buffer the RMS computation does
not fail with any guard — `meanSquare [] = none` is exactly the
silently-propagated NaN of the unguarded `0.0 / 0.0`, and the callback
completes normally: the NaN fails the activation comparison, the
detector stays Inactive and the usual `false` event is emitted. -/
theorem empty_buffer_no_guard :
    meanSquare ([] : List ℚ) = none ∧
    capture_input ⟨1/2, 1/2, false⟩ false [] [] =
      { mic_active := false, events := [false], buffer := [] } :=
  ⟨rfl, rfl⟩

/-- C8 (amended): the source has no emptiness/DivideByZero guard in
`rms_amplitude`: on an empty buffer it computes `0.0 / 0.0`, silently
propagating NaN (modelled as `none`).  Both threshold comparisons on
NaN are false, so the callback completes normally with the detector
state unchanged, the accumulation buffer untouched, and the event for
the unchanged state emitted. -/
theorem empty_buffer_silent_nan (cfg : ChibiConfig) (a : Bool) (buffer : List ℤ) :
    meanSquare ([] : List ℚ) = none ∧
    (capture_input cfg a buffer []).mic_active = a ∧
    (capture_input cfg a buffer []).buffer = buffer ∧
    (capture_input cfg a buffer []).events = stepEvents cfg a := by
  have hstep : hysteresisStep cfg a (meanSquare []) = a := by
    cases a <;> simp [hysteresisStep, meanSquare, rmsGe, rmsLt]
  refine ⟨rfl, ?_, ?_, ?_⟩ <;> simp [capture_input, hstep]

/-- C9: The callback in `src/capture/mod.rs` locks the shared,
mutex-guarded configuration on every invocation, so a UI write to
threshold, deadband or flicker takes effect on the very next processed
buffer; by contrast the snapshot semantics of the earlier
`spawn_detection_thread` / `spawn_capture_thread` revisions (clone the
configuration once at spawn) ignores every later write — its run is a
function of the buffers alone. -/
theorem config_applies_next_buffer (cfg : ChibiConfig) (a : Bool) (t dd : ℚ)
    (f : Bool) (data : List ℚ) (ops : List SessionOp) :
    runShared cfg a (SessionOp.setThreshold t :: SessionOp.processBuffer data :: ops) =
      hysteresisStep { cfg with microphone_threshold := t } a (meanSquare data) ::
        runShared { cfg with microphone_threshold := t }
          (hysteresisStep { cfg with microphone_threshold := t } a (meanSquare data))
          ops ∧
    runShared cfg a (SessionOp.setDeadband dd :: ops) =
      runShared { cfg with deadband_factor := dd } a ops ∧
    runShared cfg a (SessionOp.setFlicker f :: ops) =
      runShared { cfg with flicker_input := f } a ops ∧
    runSnapshot cfg a (SessionOp.setThreshold t :: ops) = runSnapshot cfg a ops ∧
    runSnapshot cfg a ops = runCapture cfg a (sessionBuffers ops) := by
  refine ⟨rfl, rfl, rfl, rfl, ?_⟩
  induction ops generalizing a with
  | nil => rfl
  | cons op rest ih =>
    cases op <;> simp [runSnapshot, sessionBuffers, runCapture, ih]

/-- C10: After a buffer that leaves the detector Active, each input
sample is clamped to `[-1, 1]`, scaled by 32767 and truncated to a
16-bit integer, and the results are appended in input order to the
accumulation buffer; after a buffer that leaves the detector Inactive
the accumulation buffer is unchanged. -/
theorem active_buffer_accumulation (cfg : ChibiConfig) (a : Bool) (buffer : List ℤ)
    (data : List ℚ) :
    ((capture_input cfg a buffer data).mic_active = true →
      (capture_input cfg a buffer data).buffer = buffer ++ data.map toI16) ∧
    ((capture_input cfg a buffer data).mic_active = false →
      (capture_input cfg a buffer data).buffer = buffer) := by
  constructor <;> intro h <;> simp only [capture_input] at h ⊢ <;> rw [h] <;> simp

theorem active_buffer_accumulation_witness :
    (capture_input ⟨1/2, 1/2, false⟩ false [5] [3/5, -2]).mic_active = true ∧
    (capture_input ⟨1/2, 1/2, false⟩ false [5] [3/5, -2]).buffer =
      [5, 19660, -32767] := by
  have hact : (capture_input ⟨1/2, 1/2, false⟩ false [5] [(3:ℚ)/5, -2]).mic_active
      = true := by
    norm_num [capture_input, hysteresisStep, rmsGe, meanSquare]
  have h := (active_buffer_accumulation ⟨1/2, 1/2, false⟩ false [5] [(3:ℚ)/5, -2]).1 hact
  refine ⟨hact, ?_⟩
  rw [h]
  have hc : ((-32767 : ℤ) : ℚ) = (-32767 : ℚ) := by norm_num
  norm_num [toI16, ratTrunc]
  rw [← hc, Int.ceil_intCast]
